import Mathlib

/-!
Verification development for the CompanyMatch repository
(src/api.js, src/data-processor.js, src/elastic-client.js).

The JavaScript source is shallowly embedded: strings are Lean `String`
(lists of characters), JS arrays are Lean lists, ElasticSearch documents
are record structures, and the stateful "delete all documents, then bulk
reload" indexing step is embedded as an explicit sequence of observable
index states.  JS string primitives (`toLowerCase`, `includes`,
`replace` with a literal first-occurrence pattern, `split`) are embedded
for the ASCII inputs this code base manipulates.
-/

namespace CompanyMatch

/-- Model of the character class `[0-9]` (JS regex `\d`; its complement
`\D` is stripped by `normalizePhone`). -/
def jsIsDigit (c : Char) : Bool := '0' ≤ c && c ≤ '9'

/-- Model of the JS regex class `\s` (whitespace), restricted to the
ASCII whitespace characters. -/
def jsIsSpace (c : Char) : Bool :=
  c = ' ' || c = '\t' || c = '\n' || c = '\r' || c = '\x0b' || c = '\x0c'

/-- Model of the JS regex class `\w`, which is `[A-Za-z0-9_]` (stated
on code points: 65-90 is `A`-`Z`, 97-122 is `a`-`z`, 48-57 is `0`-`9`,
95 is `_`). -/
def jsIsWordChar (c : Char) : Bool :=
  (65 ≤ c.toNat && c.toNat ≤ 90) || (97 ≤ c.toNat && c.toNat ≤ 122) ||
  (48 ≤ c.toNat && c.toNat ≤ 57) || c.toNat = 95

/-- The lowercase part of the JS class `\w`: `[a-z0-9_]`.  Used to
state what characters can appear in a token produced by `tokenize`. -/
def isLowerWordChar (c : Char) : Bool :=
  (97 ≤ c.toNat && c.toNat ≤ 122) || (48 ≤ c.toNat && c.toNat ≤ 57) || c.toNat = 95

/-- Model of `String.prototype.toLowerCase` on one character, for the
ASCII range handled by this code base (identical to core `Char.toLower`). -/
def jsToLowerChar (c : Char) : Char :=
  if 65 ≤ c.toNat ∧ c.toNat ≤ 90 then Char.ofNat (c.toNat + 32) else c

/-- Model of `String.prototype.toLowerCase` (ASCII range). -/
def jsToLower (s : String) : String := ⟨s.data.map jsToLowerChar⟩

/-- Substring occurrence test on character lists: `hasSub pat s` holds
when `pat` occurs contiguously in `s` (JS `String.prototype.includes`). -/
def hasSub (pat : List Char) : List Char → Bool
  | [] => pat.isPrefixOf ([] : List Char)
  | c :: t => pat.isPrefixOf (c :: t) || hasSub pat t

/-- Model of JS `a.includes(b)`. -/
def jsIncludes (a b : String) : Bool := hasSub b.data a.data

/-- First-occurrence literal replacement on character lists: model of JS
`s.replace(pat, rep)` where `pat` is a literal (the `/…/i` regexes in
`normalizeWebsite` are literal strings, applied to an input that has
already been lowercased, so a literal lowercase match is faithful). -/
def replaceFirst (pat rep : List Char) : List Char → List Char
  | [] => if pat.isPrefixOf ([] : List Char) then rep else []
  | c :: t =>
    if pat.isPrefixOf (c :: t) then rep ++ (c :: t).drop pat.length
    else c :: replaceFirst pat rep t

/-- String wrapper for `replaceFirst`. -/
def jsReplace (s pat rep : String) : String := ⟨replaceFirst pat.data rep.data s.data⟩

/-- Single-character-separator split, model of JS `s.split(sep)` for a
one-character literal separator such as `'/'` or `'.'`. -/
def splitChar (sep : Char) : List Char → List (List Char)
  | [] => [[]]
  | c :: t =>
    if c = sep then [] :: splitChar sep t
    else
      match splitChar sep t with
      | [] => [[c]]
      | piece :: rest => (c :: piece) :: rest

mutual

/-- Model of JS `s.split(', ')` (the two-character separator used for
the delimiter-joined contact fields): main scanning function. -/
def scsGo : List Char → List (List Char)
  | [] => [[]]
  | c :: t =>
    if c = ',' ∧ t.head? = some ' ' then [] :: scsDrop t
    else
      match scsGo t with
      | [] => [[c]]
      | piece :: rest => (c :: piece) :: rest

/-- Companion of `scsGo`: consumes the space character of a matched
`', '` separator and resumes scanning. -/
def scsDrop : List Char → List (List Char)
  | [] => [[]]
  | _ :: t => scsGo t

end

/-- Model of JS `s.split(', ')`. -/
def jsSplitCommaSpace (s : String) : List String := (scsGo s.data).map fun l => ⟨l⟩

/-- Model of JS `s.split('/')` / `s.split('.')` as strings. -/
def jsSplitChar (s : String) (sep : Char) : List String :=
  (splitChar sep s.data).map fun l => ⟨l⟩

/-- Model of JS `s.split('/').pop()`: the last `/`-separated segment
(`extractFacebookHandle` in the spec; inlined as
`facebook.split('/').pop()` in api.js). -/
def lastSegment (s : String) : String := (jsSplitChar s '/').getLastD ""

/-- JS truthiness of a string value: `""` is falsy, every other string
is truthy. -/
def jsTruthy (s : String) : Bool := !(s = "")

/-- Embedding of `normalizePhone` (api.js lines 19-22): strips every
non-digit character; a falsy input yields the empty string. -/
def normalizePhone (phone : String) : String :=
  if phone = "" then "" else ⟨phone.data.filter (fun c => jsIsDigit c)⟩

/-- Model of `new URL(url).hostname` as invoked by `normalizeWebsite`
(a WHATWG platform primitive, not repository code).  Scope of the model:
parsing succeeds exactly on strings carrying an explicit `http://` or
`https://` scheme (the only scheme forms `normalizeWebsite` can produce
after its typo repairs), in which case the hostname is the authority
part up to the first `/`, `?`, `#`, with a trailing `:port` removed and
a leading `userinfo@` removed; an empty host is a parse failure, as it
is for the special schemes in WHATWG.  Strings without such a scheme do
not parse (`new URL` throws), which sends `normalizeWebsite` into its
catch branch. -/
def urlHostname (s : List Char) : Option (List Char) :=
  let afterScheme : Option (List Char) :=
    if "https://".data.isPrefixOf s then some (s.drop 8)
    else if "http://".data.isPrefixOf s then some (s.drop 7)
    else none
  match afterScheme with
  | none => none
  | some rest =>
    let authority := rest.takeWhile fun c => ¬ (c = '/' ∨ c = '?' ∨ c = '#')
    let hostPort := (splitChar '@' authority).getLastD []
    let host := hostPort.takeWhile fun c => c ≠ ':'
    if host = [] then none else some host

/-- Embedding of `normalizeWebsite` (api.js lines 24-55): lowercase,
repair the five malformed-scheme patterns (first occurrence each, in
source order), then try URL parsing for the hostname; on parse failure
treat the value as a bare domain, appending `.com` when it has no dot
and stripping a leading `www.`. -/
def normalizeWebsite (website : String) : String :=
  if website = "" then "" else
  let url := jsToLower website
  let url := jsReplace url "https://https://" "https://"
  let url := jsReplace url "https://http://" "http://"
  let url := jsReplace url "http://https://" "https://"
  let url := jsReplace url "https//" "https://"
  let url := jsReplace url "http//" "http://"
  match urlHostname url.data with
  | some h => ⟨h⟩
  | none =>
    let domain := url
    let domain :=
      if ¬ (domain.data.contains '.') ∧ ¬ ("www.".data.isPrefixOf domain.data) then
        domain ++ ".com"
      else domain
    if "www.".data.isPrefixOf domain.data then ⟨domain.data.drop 4⟩ else domain

/-- A string on which `normalizeWebsite` acts as the identity: it is
already lowercase, contains none of the five malformed-scheme patterns,
carries no `http://` or `https://` scheme (so URL parsing fails and the
catch branch runs), contains a dot (so no `.com` is appended) and does
not start with `www.` (so nothing is stripped).  Every such string is
a fixed point of `normalizeWebsite`. -/
def isStableDomain (d : String) : Bool :=
  (jsToLower d == d) &&
  !(hasSub "https://https://".data d.data) &&
  !(hasSub "https://http://".data d.data) &&
  !(hasSub "http://https://".data d.data) &&
  !(hasSub "https//".data d.data) &&
  !(hasSub "http//".data d.data) &&
  !("https://".data.isPrefixOf d.data) &&
  !("http://".data.isPrefixOf d.data) &&
  d.data.contains '.' &&
  !("www.".data.isPrefixOf d.data)

mutual

/-- Model of JS `s.split(/\s+/)`, main scanning state: accumulates the
current piece (reversed) and emits it at each whitespace run. -/
def wsGo : List Char → List Char → List (List Char)
  | [], cur => [cur.reverse]
  | c :: rest, cur =>
    if jsIsSpace c then cur.reverse :: wsSkip rest else wsGo rest (c :: cur)

/-- Model of JS `s.split(/\s+/)`, separator state: consumes the rest of
a whitespace run; a run that ends the string still contributes a final
empty piece, as the JS regex split does. -/
def wsSkip : List Char → List (List Char)
  | [] => [[]]
  | c :: rest => if jsIsSpace c then wsSkip rest else wsGo rest [c]

end

/-- Model of JS `s.split(/\s+/)` on a character list. -/
def jsSplitWs (s : List Char) : List (List Char) := wsGo s []

/-- Embedding of `tokenize` (data-processor.js lines 9-15): lowercase,
replace every character outside the JS classes `\w` and `\s` with a
space, split on whitespace runs, and keep only tokens of length `> 1`.
A falsy input yields the empty array. -/
def tokenize (text : String) : List String :=
  if text = "" then [] else
  let lowered := (jsToLower text).data
  let replaced := lowered.map fun c => if jsIsWordChar c || jsIsSpace c then c else ' '
  ((jsSplitWs replaced).map fun l => (⟨l⟩ : String)).filter fun tok => 1 < tok.length

/-- A row of the name-registry CSV `sample-websites-company-names.csv`
(parsed with `columns: true`, so every cell is a string). -/
structure NameRow where
  domain : String
  company_commercial_name : String
  company_legal_name : String
  company_all_available_names : String
deriving DecidableEq, Repr

/-- A row of the contact-extraction CSV `crawling_results.csv`: the
multi-valued fields are `', '`-joined strings and `success` is the
string form of the scraper's flag. -/
structure ScrapedRow where
  domain : String
  phoneNumbers : String
  socialMediaLinks : String
  addresses : String
  emails : String
  success : String
deriving DecidableEq, Repr

/-- The merged company record built by `mergeData`
(data-processor.js lines 83-94). -/
structure CompanyRecord where
  domain : String
  company_commercial_name : String
  company_legal_name : String
  company_all_available_names : String
  phoneNumbers : List String
  socialMediaLinks : List String
  addresses : List String
  emails : List String
  success : Bool
  searchTokens : List String
deriving DecidableEq, Repr

/-- Embedding of the `scrapedDataMap` built by
`scrapedData.reduce((map, item) => { map[item.domain] = item; ... })`
followed by the lookup `scrapedDataMap[domain]`: later rows overwrite
earlier rows with the same domain, so the lookup returns the last
matching row. -/
def scrapedLookup (rows : List ScrapedRow) (d : String) : Option ScrapedRow :=
  rows.foldl (fun acc r => if r.domain = d then some r else acc) none

/-- Embedding of `scrapedInfo.field ? scrapedInfo.field.split(', ') : []`
where a missing joined row (`scrapedDataMap[domain] || {}`) reads every
field as the falsy `undefined`, modelled as `""`. -/
def parseListField (s : String) : List String :=
  if jsTruthy s then jsSplitCommaSpace s else []

/-- Reading a field of `scrapedInfo`, which is `{}` (every field
undefined, modelled `""`) when the domain has no contact row. -/
def scrapedField (o : Option ScrapedRow) (f : ScrapedRow → String) : String :=
  match o with
  | some r => f r
  | none => ""

/-- Model of `Array.from(new Set(l))`: deduplication preserving first
insertion order, as used for `searchTokens`. -/
def jsSetFrom (l : List String) : List String :=
  l.foldl (fun acc x => if x ∈ acc then acc else acc ++ [x]) []

/-- Embedding of the body of the `companyNames.map` callback in
`mergeData` (data-processor.js lines 61-95): join one name-registry row
with its contact row (if any), split the delimiter-joined contact
fields, build `searchTokens` from every text field, and assemble the
record.  `success` renders `scrapedInfo.success === 'true' ||
Boolean(scrapedInfo.success)`: string truthiness, so any non-empty
string counts. -/
def buildRecord (nameData : NameRow) (scrapedInfo : Option ScrapedRow) : CompanyRecord :=
  let domain := nameData.domain
  let phoneNumbers := parseListField (scrapedField scrapedInfo ScrapedRow.phoneNumbers)
  let socialMediaLinks := parseListField (scrapedField scrapedInfo ScrapedRow.socialMediaLinks)
  let addresses := parseListField (scrapedField scrapedInfo ScrapedRow.addresses)
  let emails := parseListField (scrapedField scrapedInfo ScrapedRow.emails)
  let searchTokens := jsSetFrom
    (tokenize nameData.company_commercial_name ++
     tokenize nameData.company_legal_name ++
     tokenize nameData.company_all_available_names ++
     tokenize domain ++
     phoneNumbers.flatMap tokenize ++
     socialMediaLinks.flatMap tokenize ++
     addresses.flatMap tokenize ++
     emails.flatMap tokenize)
  { domain := domain
    company_commercial_name := nameData.company_commercial_name
    company_legal_name :=
      if jsTruthy nameData.company_legal_name then nameData.company_legal_name else ""
    company_all_available_names := nameData.company_all_available_names
    phoneNumbers := phoneNumbers
    socialMediaLinks := socialMediaLinks
    addresses := addresses
    emails := emails
    success := scrapedField scrapedInfo ScrapedRow.success = "true" ||
      jsTruthy (scrapedField scrapedInfo ScrapedRow.success)
    searchTokens := searchTokens }

/-- Embedding of the pure data transformation of `mergeData`
(data-processor.js lines 45-95): one record per name-registry row, in
input order, each joined against the contact map by domain. -/
def mergeData (companyNames : List NameRow) (scrapedData : List ScrapedRow) :
    List CompanyRecord :=
  companyNames.map fun nameData => buildRecord nameData (scrapedLookup scrapedData nameData.domain)

/-- Embedding of `loadCompanyNames` (data-processor.js lines 18-26): a
missing or unreadable name-registry file is caught and yields the empty
dataset; the run proceeds. -/
def loadCompanyNames (src : Option (List NameRow)) : List NameRow := src.getD []

/-- Embedding of `loadScrapedData` (data-processor.js lines 29-42): a
missing `crawling_results.csv` yields the empty dataset with a warning;
the run proceeds. -/
def loadScrapedData (src : Option (List ScrapedRow)) : List ScrapedRow := src.getD []

/-- Batching of the bulk operations in `indexCompanies`
(data-processor.js lines 183-200): two operations are pushed per
company and the buffer is flushed whenever it reaches 1000 operations,
so companies are indexed in batches of `batchSize = 500`; `acc` is the
current batch (reversed) and `k` the remaining capacity of that batch. -/
def chunksAux (batchSize : Nat) : List CompanyRecord → List CompanyRecord → Nat →
    List (List CompanyRecord)
  | [], acc, _ => if acc = [] then [] else [acc.reverse]
  | x :: xs, acc, k =>
    if k ≤ 1 then (x :: acc).reverse :: chunksAux batchSize xs [] batchSize
    else chunksAux batchSize xs (x :: acc) (k - 1)

/-- The successive bulk batches of `indexCompanies`: batches of 500
companies, in input order. -/
def chunks500 (l : List CompanyRecord) : List (List CompanyRecord) := chunksAux 500 l [] 500

/-- Cumulative index contents after each bulk call: given the batches,
the list of the successive partial corpora `acc ++ b₁`,
`acc ++ b₁ ++ b₂`, … -/
def cumStatesFrom (acc : List CompanyRecord) :
    List (List CompanyRecord) → List (List CompanyRecord)
  | [] => []
  | b :: bs => (acc ++ b) :: cumStatesFrom (acc ++ b) bs

/-- Embedding of the observable index states of one `indexCompanies`
run (data-processor.js lines 173-203) as a step trace: the state before
the run (`old`); the empty state right after
`deleteByQuery({ match_all }, refresh: true)`; and the state after each
(refreshed) bulk batch, ending with the complete new corpus.  Each bulk
operation carries `refresh: true`, so every one of these states is
visible to a concurrently executing search. -/
def ingestStates (old newCorpus : List CompanyRecord) : List (List CompanyRecord) :=
  old :: [] :: cumStatesFrom [] (chunks500 newCorpus)

/-- The corpus produced by one ingestion run of `mergeData` given the
two input files, each possibly missing (`none`). -/
def runIngestion (nameSrc : Option (List NameRow)) (scrapedSrc : Option (List ScrapedRow)) :
    List CompanyRecord :=
  mergeData (loadCompanyNames nameSrc) (loadScrapedData scrapedSrc)

/-- The generation readers observe once an ingestion run has finished:
the last state of the run's trace. -/
def finalGeneration (old newCorpus : List CompanyRecord) : List CompanyRecord :=
  (ingestStates old newCorpus).getLastD old

/-- A request body for `/api/match` or `/api/search`: the four optional
signal fields.  An absent field (`undefined`/`null`) is modelled as
`""`, which has exactly the same falsiness in every use below. -/
structure Query where
  name : String
  website : String
  phone : String
  facebook : String
deriving DecidableEq, Repr

/-- One ElasticSearch hit: the stored document and its `_score`,
modelled as an exact rational. -/
structure Hit where
  source : CompanyRecord
  score : ℚ
deriving DecidableEq

/-- Model of JS `Math.round`: round half away from zero upwards,
`floor(x + 1/2)`. -/
def jsRound (x : ℚ) : ℤ := ⌊x + 1/2⌋

/-- The derived confidence `Math.min(100, Math.round(score * 10))`
(api.js lines 414 and 461). -/
def confidenceOf (s : ℚ) : ℤ := min 100 (jsRound (s * 10))

/-- Embedding of the matched-field re-check of `/api/match`
(api.js lines 423-440) on a fully typed record. -/
def matchingFieldsOf (q : Query) (src : CompanyRecord) : List String :=
  (if jsTruthy q.name &&
      (jsIncludes (jsToLower src.company_commercial_name) (jsToLower q.name) ||
       (jsTruthy src.company_legal_name &&
        jsIncludes (jsToLower src.company_legal_name) (jsToLower q.name))) then
    ["name"] else []) ++
  (if jsTruthy q.website && (normalizeWebsite q.website == src.domain) then
    ["domain"] else []) ++
  (if jsTruthy q.phone &&
      src.phoneNumbers.any (fun p => normalizePhone p == normalizePhone q.phone) then
    ["phone"] else []) ++
  (if jsTruthy q.facebook &&
      src.socialMediaLinks.any (fun link =>
        jsIncludes link "facebook.com" &&
        (jsIncludes link q.facebook || jsIncludes q.facebook link)) then
    ["facebook"] else [])

/-- A hit document as JS sees it: every field access may yield
`undefined` (`none`).  Used to state that the unguarded accesses of the
matched-field re-check (`company_commercial_name.toLowerCase()`,
`phoneNumbers.some`, `socialMediaLinks.some`) cannot fault on records
produced by `mergeData`. -/
structure DynSource where
  domain : Option String
  company_commercial_name : Option String
  company_legal_name : Option String
  phoneNumbers : Option (List String)
  socialMediaLinks : Option (List String)

/-- A `CompanyRecord` seen as a dynamic JS object: every field is
present. -/
def toDyn (r : CompanyRecord) : DynSource :=
  { domain := some r.domain
    company_commercial_name := some r.company_commercial_name
    company_legal_name := some r.company_legal_name
    phoneNumbers := some r.phoneNumbers
    socialMediaLinks := some r.socialMediaLinks }

/-- Embedding of the matched-field re-check of `/api/match`
(api.js lines 423-440) with JS dynamic-field semantics: `none` is
returned exactly when the JS code would throw a TypeError.  The legal
name is truthiness-guarded in the source, so an absent legal name is
safe; the commercial name, phone array and social-link array are
accessed unguarded. -/
def matchingFieldsDyn (q : Query) (src : DynSource) : Option (List String) := do
  let nameF ←
    if jsTruthy q.name then do
      let ccn ← src.company_commercial_name
      pure (if jsIncludes (jsToLower ccn) (jsToLower q.name) ||
          (match src.company_legal_name with
           | some cln => jsTruthy cln && jsIncludes (jsToLower cln) (jsToLower q.name)
           | none => false) then ["name"] else [])
    else pure []
  let domF :=
    if jsTruthy q.website &&
        (match src.domain with
         | some d => normalizeWebsite q.website == d
         | none => false) then ["domain"] else []
  let phoneF ←
    if jsTruthy q.phone then do
      let ps ← src.phoneNumbers
      pure (if ps.any (fun p => normalizePhone p == normalizePhone q.phone) then
        ["phone"] else [])
    else pure []
  let fbF ←
    if jsTruthy q.facebook then do
      let links ← src.socialMediaLinks
      pure (if links.any (fun link =>
          jsIncludes link "facebook.com" &&
          (jsIncludes link q.facebook || jsIncludes q.facebook link)) then
        ["facebook"] else [])
    else pure []
  pure (nameF ++ domF ++ phoneF ++ fbF)

/-- The JSON body `/api/match` answers with (api.js lines 443-484):
either a confident match (domain, confidence, score, matched fields and
up to two alternatives) or a no-confident-match response carrying up to
three potential matches as `(domain, score)` pairs. -/
structure MatchResponse where
  success : Bool
  matchDomain : Option String
  confidence : Option ℤ
  score : Option ℚ
  matchingFields : List String
  alternatives : List (String × ℤ × ℚ)
  potentialMatches : List (String × ℚ)
deriving DecidableEq

/-- Embedding of the response logic of `/api/match`
(api.js lines 397-484) given the ranked hits ES returns for the built
query.  The ES call uses `size: 10`, so `hits` is the top 10 of the
ranking and `total.value > 0` holds exactly when `hits` is nonempty. -/
def matchRespond (q : Query) (ranked : List Hit) : MatchResponse :=
  let hits := ranked.take 10
  match hits with
  | [] =>
    { success := false, matchDomain := none, confidence := none, score := none
      matchingFields := [], alternatives := [], potentialMatches := [] }
  | best :: rest =>
    if 3 < best.score then
      { success := true
        matchDomain := some best.source.domain
        confidence := some (confidenceOf best.score)
        score := some best.score
        matchingFields := matchingFieldsOf q best.source
        alternatives := (rest.take 2).map fun h => (h.source.domain, confidenceOf h.score, h.score)
        potentialMatches := [] }
    else
      { success := false, matchDomain := none, confidence := none, score := none
        matchingFields := [], alternatives := []
        potentialMatches := (hits.take 3).map fun h => (h.source.domain, h.score) }

/-- One `should` clause of the ElasticSearch bool query built by the
endpoints: a `match`, `term` or `wildcard` clause with its boost. -/
inductive Clause where
  | matchQ (field : String) (queryText : String) (boost : ℚ)
  | termQ (field : String) (value : String) (boost : ℚ)
  | wildcardQ (field : String) (value : String) (boost : ℚ)
deriving DecidableEq, Repr

/-- Model of JS `s.slice(-7)`: the last seven characters. -/
def sliceLast7 (s : String) : String := ⟨s.data.drop (s.data.length - 7)⟩

/-- Embedding of the `should` clause list built by `/api/match`
(api.js lines 332-395), in source order. -/
def matchShould (q : Query) : List Clause :=
  (if jsTruthy q.name then
    [Clause.matchQ "company_commercial_name" q.name 3,
     Clause.matchQ "company_legal_name" q.name 2,
     Clause.matchQ "company_all_available_names" q.name 1,
     Clause.termQ "company_commercial_name.keyword" q.name 5,
     Clause.termQ "company_legal_name.keyword" q.name 4]
   else []) ++
  (if jsTruthy q.website then
    (let normalizedDomain := normalizeWebsite q.website
     if jsTruthy normalizedDomain then
       [Clause.termQ "domain" normalizedDomain 10,
        Clause.wildcardQ "domain" ("*" ++ normalizedDomain ++ "*") 5] ++
       (let domainWithoutTld := (jsSplitChar normalizedDomain '.').headD ""
        if jsTruthy domainWithoutTld && decide (3 < domainWithoutTld.length) then
          [Clause.wildcardQ "domain" (domainWithoutTld ++ "*") 3]
        else [])
     else [])
   else []) ++
  (if jsTruthy q.phone then
    (let normalizedPhone := normalizePhone q.phone
     if 7 ≤ normalizedPhone.length then
       [Clause.termQ "phoneNumbers" normalizedPhone 8,
        Clause.termQ "phoneNumbers" q.phone 7] ++
       (if 7 ≤ normalizedPhone.length then
          [Clause.wildcardQ "phoneNumbers" ("*" ++ sliceLast7 normalizedPhone) 4]
        else [])
     else [])
   else []) ++
  (if jsTruthy q.facebook then
    [Clause.wildcardQ "socialMediaLinks" ("*facebook.com*" ++ lastSegment q.facebook ++ "*") 6,
     Clause.wildcardQ "socialMediaLinks" "*facebook.com*" 3]
   else [])

/-- Embedding of the `should` clause list built by `/api/search`
(api.js lines 505-547), in source order. -/
def searchShould (q : Query) : List Clause :=
  (if jsTruthy q.name then
    [Clause.matchQ "company_commercial_name" q.name 3,
     Clause.matchQ "company_legal_name" q.name 2,
     Clause.matchQ "company_all_available_names" q.name 1]
   else []) ++
  (if jsTruthy q.website then
    (let normalizedDomain := normalizeWebsite q.website
     if jsTruthy normalizedDomain then
       [Clause.termQ "domain" normalizedDomain 10,
        Clause.wildcardQ "domain" ("*" ++ normalizedDomain ++ "*") 5]
     else [])
   else []) ++
  (if jsTruthy q.phone then
    (let normalizedPhone := normalizePhone q.phone
     if 7 ≤ normalizedPhone.length then
       [Clause.termQ "phoneNumbers" normalizedPhone 8,
        Clause.wildcardQ "phoneNumbers" ("*" ++ normalizedPhone ++ "*") 4]
     else [])
   else []) ++
  (if jsTruthy q.facebook then
    [Clause.termQ "facebookLink" q.facebook 9,
     Clause.wildcardQ "facebookLink" ("*" ++ q.facebook ++ "*") 6,
     Clause.wildcardQ "socialMediaLinks" "*facebook.com*" 4]
   else [])

/-- One result row of the `/api/search` response
(api.js lines 567-575; the `facebookLink` field is `undefined` for
every record `mergeData` produces and is omitted here). -/
structure SearchResult where
  domain : String
  company_commercial_name : String
  company_legal_name : String
  phoneNumbers : List String
  socialMediaLinks : List String
  score : ℚ
deriving DecidableEq

/-- The JSON body `/api/search` answers with. -/
structure SearchResponse where
  success : Bool
  count : Nat
  results : List SearchResult
deriving DecidableEq

/-- Embedding of the response logic of `/api/search`
(api.js lines 549-576) given the full ranking for the built query: the
ES call runs with `size: limit` (request default `limit = 5`), and the
response carries every returned hit with no confidence gate. -/
def searchRespond (ranked : List Hit) (limit : Option Nat) : SearchResponse :=
  let size := limit.getD 5
  let hits := ranked.take size
  { success := true
    count := ranked.length
    results := hits.map fun h =>
      { domain := h.source.domain
        company_commercial_name := h.source.company_commercial_name
        company_legal_name := h.source.company_legal_name
        phoneNumbers := h.source.phoneNumbers
        socialMediaLinks := h.source.socialMediaLinks
        score := h.score } }

/-! ### Helper lemmas about the embedded JS primitives -/

theorem mem_foldl_ins (l : List String) :
    ∀ (acc : List String) (x : String),
      x ∈ l.foldl (fun acc x => if x ∈ acc then acc else acc ++ [x]) acc ↔ x ∈ acc ∨ x ∈ l := by
  induction l with
  | nil => simp
  | cons y ys ih =>
    intro acc x
    simp only [List.foldl_cons]
    rw [ih]
    by_cases hy : y ∈ acc
    · simp only [hy, if_true, List.mem_cons]
      constructor
      · rintro (h | h)
        · exact Or.inl h
        · exact Or.inr (Or.inr h)
      · rintro (h | h | h)
        · exact Or.inl h
        · exact Or.inl (h ▸ hy)
        · exact Or.inr h
    · simp only [hy, if_false, List.mem_append, List.mem_singleton, List.mem_cons]
      tauto

theorem mem_jsSetFrom (l : List String) (x : String) : x ∈ jsSetFrom l ↔ x ∈ l := by
  rw [jsSetFrom, mem_foldl_ins]
  simp

theorem length_of_mem_tokenize (s t : String) (h : t ∈ tokenize s) : 1 < t.length := by
  unfold tokenize at h
  split at h
  · simp at h
  · exact of_decide_eq_true (List.mem_filter.mp h).2

theorem replaceFirst_eq_of_not_hasSub (pat rep s : List Char)
    (h : hasSub pat s = false) : replaceFirst pat rep s = s := by
  induction s with
  | nil =>
    unfold hasSub at h
    unfold replaceFirst
    rw [if_neg]
    simp [h]
  | cons c t ih =>
    unfold hasSub at h
    simp only [Bool.or_eq_false_iff] at h
    unfold replaceFirst
    rw [if_neg (by simp [h.1])]
    rw [ih h.2]

theorem jsReplace_self (s pat rep : String) (h : hasSub pat.data s.data = false) :
    jsReplace s pat rep = s := by
  unfold jsReplace
  rw [replaceFirst_eq_of_not_hasSub _ _ _ h]

theorem stableDomain_fixed (d : String) (h : isStableDomain d = true) :
    normalizeWebsite d = d := by
  unfold isStableDomain at h
  simp only [Bool.and_eq_true, Bool.not_eq_true', beq_iff_eq] at h
  obtain ⟨⟨⟨⟨⟨⟨⟨⟨⟨hlow, h1⟩, h2⟩, h3⟩, h4⟩, h5⟩, hp1⟩, hp2⟩, hdot⟩, hwww⟩ := h
  have hne : ¬ d = "" := by
    intro he
    rw [he] at hdot
    simp [List.contains] at hdot
  unfold normalizeWebsite
  rw [if_neg hne]
  simp only [hlow]
  rw [jsReplace_self _ _ _ h1, jsReplace_self _ _ _ h2, jsReplace_self _ _ _ h3,
    jsReplace_self _ _ _ h4, jsReplace_self _ _ _ h5]
  have hurl : urlHostname d.data = none := by
    unfold urlHostname
    simp [hp1, hp2]
  rw [hurl]
  simp only [hdot]
  simp [hdot, hwww]

theorem toNat_ofNat_shift (n : Nat) (h1 : 65 ≤ n) (h2 : n ≤ 90) :
    (Char.ofNat (n + 32)).toNat = n + 32 := by
  have hv : (n + 32).isValidChar := by
    unfold Nat.isValidChar
    omega
  simp only [Char.ofNat, hv, dite_true, Char.ofNatAux, Char.toNat]
  rfl

theorem toLowerChar_not_upper (c : Char) :
    ¬ (65 ≤ (jsToLowerChar c).toNat ∧ (jsToLowerChar c).toNat ≤ 90) := by
  unfold jsToLowerChar
  by_cases h : 65 ≤ c.toNat ∧ c.toNat ≤ 90
  · rw [if_pos h]
    rw [toNat_ofNat_shift c.toNat h.1 h.2]
    omega
  · rw [if_neg h]
    exact h

theorem replacedChar_space_or_lower (x : Char) :
    jsIsSpace (if jsIsWordChar (jsToLowerChar x) || jsIsSpace (jsToLowerChar x) then
      jsToLowerChar x else ' ') = true ∨
    isLowerWordChar (if jsIsWordChar (jsToLowerChar x) || jsIsSpace (jsToLowerChar x) then
      jsToLowerChar x else ' ') = true := by
  by_cases h : (jsIsWordChar (jsToLowerChar x) || jsIsSpace (jsToLowerChar x)) = true
  · rw [if_pos h]
    rcases Bool.or_eq_true_iff.mp h with hw | hs
    · right
      have hnu := toLowerChar_not_upper x
      unfold jsIsWordChar at hw
      unfold isLowerWordChar
      simp only [Bool.or_eq_true, Bool.and_eq_true, decide_eq_true_eq] at hw ⊢
      omega
    · left
      exact hs
  · rw [if_neg h]
    left
    decide

theorem wsGo_wsSkip_chars (P : Char → Prop) :
    ∀ s : List Char, (∀ c ∈ s, jsIsSpace c = true ∨ P c) →
      ((∀ cur : List Char, (∀ c ∈ cur, jsIsSpace c = false ∧ P c) →
        ∀ p ∈ wsGo s cur, ∀ c ∈ p, jsIsSpace c = false ∧ P c) ∧
       (∀ p ∈ wsSkip s, ∀ c ∈ p, jsIsSpace c = false ∧ P c)) := by
  intro s
  induction s with
  | nil =>
    intro _
    refine ⟨?_, ?_⟩
    · intro cur hcur p hp c hc
      simp only [wsGo, List.mem_singleton] at hp
      subst hp
      exact hcur c (List.mem_reverse.mp hc)
    · intro p hp c hc
      simp only [wsSkip, List.mem_singleton] at hp
      subst hp
      simp at hc
  | cons a t ih =>
    intro hs
    have hst : ∀ c ∈ t, jsIsSpace c = true ∨ P c := fun c hc => hs c (List.mem_cons_of_mem a hc)
    have iht := ih hst
    have ha := hs a (List.mem_cons_self a t)
    refine ⟨?_, ?_⟩
    · intro cur hcur p hp c hc
      simp only [wsGo] at hp
      by_cases hsp : jsIsSpace a = true
      · rw [if_pos hsp] at hp
        rcases List.mem_cons.mp hp with h | h
        · subst h
          exact hcur c (List.mem_reverse.mp hc)
        · exact iht.2 p h c hc
      · rw [if_neg hsp] at hp
        have hPa : P a := by
          rcases ha with h | h
          · exact absurd h hsp
          · exact h
        refine iht.1 (a :: cur) ?_ p hp c hc
        intro c' hc'
        rcases List.mem_cons.mp hc' with h | h
        · subst h
          exact ⟨Bool.not_eq_true _ ▸ hsp, hPa⟩
        · exact hcur c' h
    · intro p hp c hc
      simp only [wsSkip] at hp
      by_cases hsp : jsIsSpace a = true
      · rw [if_pos hsp] at hp
        exact iht.2 p hp c hc
      · rw [if_neg hsp] at hp
        have hPa : P a := by
          rcases ha with h | h
          · exact absurd h hsp
          · exact h
        refine iht.1 [a] ?_ p hp c hc
        intro c' hc'
        simp only [List.mem_singleton] at hc'
        subst hc'
        exact ⟨Bool.not_eq_true _ ▸ hsp, hPa⟩

theorem tokenize_chars (s t : String) (h : t ∈ tokenize s) :
    ∀ c ∈ t.data, isLowerWordChar c = true := by
  unfold tokenize at h
  split at h
  · simp at h
  · have hm := (List.mem_filter.mp h).1
    obtain ⟨l, hl, rfl⟩ := List.mem_map.mp hm
    intro c hc
    have hrep : ∀ c' ∈ ((jsToLower s).data).map
        (fun c' => if jsIsWordChar c' || jsIsSpace c' then c' else ' '),
        jsIsSpace c' = true ∨ isLowerWordChar c' = true := by
      intro c' hc'
      obtain ⟨z, hz, rfl⟩ := List.mem_map.mp hc'
      unfold jsToLower at hz
      simp only at hz
      obtain ⟨x, _, rfl⟩ := List.mem_map.mp hz
      exact replacedChar_space_or_lower x
    have hinv := (wsGo_wsSkip_chars (fun c' => isLowerWordChar c' = true) _ hrep).1
      [] (by simp) l hl
    exact (hinv c hc).2

theorem chunksAux_flatten (bs : Nat) :
    ∀ (l acc : List CompanyRecord) (k : Nat),
      (chunksAux bs l acc k).flatten = acc.reverse ++ l := by
  intro l
  induction l with
  | nil =>
    intro acc k
    simp only [chunksAux]
    by_cases h : acc = []
    · simp [h]
    · rw [if_neg h]
      simp
  | cons x xs ih =>
    intro acc k
    simp only [chunksAux]
    by_cases h : k ≤ 1
    · rw [if_pos h]
      simp only [List.flatten_cons, ih]
      simp
    · rw [if_neg h]
      rw [ih]
      simp

theorem chunks500_flatten (l : List CompanyRecord) : (chunks500 l).flatten = l := by
  unfold chunks500
  rw [chunksAux_flatten]
  simp

theorem cumStatesFrom_getLastD (cs : List (List CompanyRecord)) :
    ∀ acc : List CompanyRecord, (cumStatesFrom acc cs).getLastD acc = acc ++ cs.flatten := by
  induction cs with
  | nil => simp [cumStatesFrom]
  | cons b bs ih =>
    intro acc
    simp only [cumStatesFrom, List.getLastD_cons, ih, List.flatten_cons]
    simp

theorem mem_cumStatesFrom (cs : List (List CompanyRecord)) :
    ∀ (acc s : List CompanyRecord), s ∈ cumStatesFrom acc cs →
      ∃ cs1 cs2, cs = cs1 ++ cs2 ∧ s = acc ++ cs1.flatten := by
  induction cs with
  | nil => simp [cumStatesFrom]
  | cons b bs ih =>
    intro acc s hs
    simp only [cumStatesFrom, List.mem_cons] at hs
    rcases hs with h | h
    · exact ⟨[b], bs, rfl, by simp [h]⟩
    · obtain ⟨cs1, cs2, heq, hval⟩ := ih (acc ++ b) s h
      exact ⟨b :: cs1, cs2, by simp [heq], by simp [hval]⟩

theorem finalGeneration_eq (old cs : List CompanyRecord) :
    finalGeneration old cs = cs := by
  unfold finalGeneration ingestStates
  rw [List.getLastD_cons, List.getLastD_cons]
  rw [cumStatesFrom_getLastD]
  simp [chunks500_flatten]

theorem scrapedLookup_acc (ss : List ScrapedRow) (d : String) (h : ∀ s ∈ ss, s.domain ≠ d) :
    ∀ acc : Option ScrapedRow,
      ss.foldl (fun acc r => if r.domain = d then some r else acc) acc = acc := by
  induction ss with
  | nil => simp
  | cons r t ih =>
    intro acc
    simp only [List.foldl_cons]
    rw [if_neg (h r (List.mem_cons_self r t))]
    exact ih (fun s hs => h s (List.mem_cons_of_mem r hs)) acc

theorem scrapedLookup_eq_none (ss : List ScrapedRow) (d : String)
    (h : ∀ s ∈ ss, s.domain ≠ d) : scrapedLookup ss d = none :=
  scrapedLookup_acc ss d h none

theorem scrapedLookup_filter (ns : List NameRow) (ss : List ScrapedRow) (d : String)
    (hd : ∃ n ∈ ns, n.domain = d) :
    ∀ acc : Option ScrapedRow,
      (ss.filter fun s => ns.any fun n => n.domain = s.domain).foldl
        (fun acc r => if r.domain = d then some r else acc) acc =
      ss.foldl (fun acc r => if r.domain = d then some r else acc) acc := by
  induction ss with
  | nil => simp
  | cons r t ih =>
    intro acc
    by_cases hp : (ns.any fun n => n.domain = r.domain) = true
    · simp only [List.filter_cons, hp, if_true, List.foldl_cons]
      exact ih _
    · simp only [List.filter_cons, hp, if_false, List.foldl_cons]
      have hrd : ¬ r.domain = d := by
        intro he
        obtain ⟨n, hn, hnd⟩ := hd
        refine hp ?_
        rw [List.any_eq_true]
        exact ⟨n, hn, by simp [hnd, he]⟩
      rw [if_neg hrd]
      exact ih acc

/-! ### Claim theorems -/

/-- C1: for every query, `/api/match` reports a confident match exactly
when at least one ranked candidate exists and the top-ranked
candidate's score is strictly greater than 3, with the reported
confidence equal to `min(100, round(score * 10))`; when the top score
is not strictly greater than 3 (or there are no candidates), it
reports no confident match and returns at most the top 3 ranked
candidates as potential matches. -/
theorem match_confident_gating (q : Query) (ranked : List Hit) :
    ((matchRespond q ranked).success = true ↔
      ∃ best rest, ranked = best :: rest ∧ 3 < best.score) ∧
    (∀ best rest, ranked = best :: rest → 3 < best.score →
      (matchRespond q ranked).confidence = some (min 100 (jsRound (best.score * 10)))) ∧
    ((matchRespond q ranked).success = false →
      (matchRespond q ranked).potentialMatches =
        (ranked.take 3).map (fun h => (h.source.domain, h.score)) ∧
      (matchRespond q ranked).potentialMatches.length ≤ 3) := by
  cases ranked with
  | nil => refine ⟨by simp [matchRespond], by simp, by simp [matchRespond]⟩
  | cons best rest =>
    have htake : (best :: rest).take 10 = best :: rest.take 9 := rfl
    by_cases hs : 3 < best.score
    · refine ⟨?_, ?_, ?_⟩
      · simp only [matchRespond, htake, if_pos hs]
        exact ⟨fun _ => ⟨best, rest, rfl, hs⟩, fun _ => trivial⟩
      · intro b r heq hbs
        obtain ⟨rfl, rfl⟩ : b = best ∧ r = rest := by
          injection heq with h1 h2
          exact ⟨h1.symm, h2.symm⟩
        simp only [matchRespond, htake, if_pos hs, confidenceOf]
      · intro hfail
        simp only [matchRespond, htake, if_pos hs] at hfail
        simp at hfail
    · refine ⟨?_, ?_, ?_⟩
      · simp only [matchRespond, htake, if_neg hs]
        constructor
        · intro h
          exact absurd h (by simp)
        · rintro ⟨b, r, heq, hbs⟩
          injection heq with h1 _
          exact absurd (h1 ▸ hbs) hs
      · intro b r heq hbs
        injection heq with h1 _
        exact absurd (h1 ▸ hbs) hs
      · intro _
        refine ⟨?_, ?_⟩
        · simp only [matchRespond, htake, if_neg hs]
          have h3 : (best :: rest.take 9).take 3 = (best :: rest).take 3 := by
            rw [show best :: rest.take 9 = (best :: rest).take 10 from rfl, List.take_take]
            norm_num
          rw [h3]
        · simp only [matchRespond, htake, if_neg hs]
          rw [List.length_map]
          calc ((best :: rest.take 9).take 3).length ≤ 3 := List.length_take_le 3 _

/-- C1 witness: a single candidate with score 5 yields a confident
match whose confidence is `min 100 (round 50)`. -/
theorem match_confident_gating_witness :
    (matchRespond ⟨"Acme", "", "", ""⟩
      [⟨⟨"acme.com", "Acme", "", "Acme", [], [], [], [], false, ["acme", "com"]⟩, 5⟩]).confidence =
      some (min 100 (jsRound ((5 : ℚ) * 10))) :=
  (match_confident_gating ⟨"Acme", "", "", ""⟩
    [⟨⟨"acme.com", "Acme", "", "Acme", [], [], [], [], false, ["acme", "com"]⟩, 5⟩]).2.1
    _ _ rfl (by norm_num)

/-- C2 counterexample: `normalizeWebsite "HTTPS://WWW.Example.com"` is
`"www.example.com"`, not `"example.com"` as the claim states — when URL
parsing succeeds the hostname is returned with its `www.` intact (the
`www.`-stripping only runs in the parse-failure branch) — and a second
application strips the `www.`, so the function is not idempotent at
this input even though it resolves to a domain. -/
theorem normalizeWebsite_www_counterexample :
    normalizeWebsite "HTTPS://WWW.Example.com" = "www.example.com" ∧
    normalizeWebsite (normalizeWebsite "HTTPS://WWW.Example.com") = "example.com" ∧
    ("www.example.com" : String) ≠ "example.com" :=
  ⟨by decide, by decide, by decide⟩

/-- C2 amended: `normalizeWebsite` maps `"example"` and
`"https://https://example.com/about"` to `"example.com"` but
`"HTTPS://WWW.Example.com"` to `"www.example.com"`, and it is
idempotent at every input whose normalized form is a stable domain
(lowercase, no malformed-scheme pattern, no explicit scheme, contains a
dot, no leading `www.`) — in particular at the two inputs that
normalize to `"example.com"`. -/
theorem normalizeWebsite_idempotent_amended (x : String)
    (h : isStableDomain (normalizeWebsite x) = true) :
    normalizeWebsite (normalizeWebsite x) = normalizeWebsite x ∧
    normalizeWebsite "example" = "example.com" ∧
    normalizeWebsite "https://https://example.com/about" = "example.com" ∧
    normalizeWebsite "HTTPS://WWW.Example.com" = "www.example.com" :=
  ⟨stableDomain_fixed _ h, by decide, by decide, by decide⟩

/-- C2 amended witness: the hypothesis holds at `"example"` and the
idempotence equation is concrete there. -/
theorem normalizeWebsite_idempotent_amended_witness :
    isStableDomain (normalizeWebsite "example") = true ∧
    normalizeWebsite (normalizeWebsite "example") = normalizeWebsite "example" :=
  ⟨by decide, (normalizeWebsite_idempotent_amended "example" (by decide)).1⟩

/-- C3 counterexample: `/api/search` does not build the same clauses,
sub-conditions and weights as `/api/match` — the two endpoints diverge
on the facebook signal, on the name signal (the exact keyword terms),
and on the phone signal (raw term and suffix wildcard). -/
theorem search_clauses_differ :
    matchShould ⟨"", "", "", "acme"⟩ ≠ searchShould ⟨"", "", "", "acme"⟩ ∧
    matchShould ⟨"Acme", "", "", ""⟩ ≠ searchShould ⟨"Acme", "", "", ""⟩ ∧
    matchShould ⟨"", "", "2125550199", ""⟩ ≠ searchShould ⟨"", "", "2125550199", ""⟩ :=
  ⟨by decide, by decide, by decide⟩

/-- C3 amended: `/api/search` applies no confidence gating and returns
up to `limit` ranked candidates (default limit 5), but its candidate
generation is only partly that of `/api/match`: for a website-only
query whose normalized domain has a pre-dot segment of length at most 3
the two clause lists coincide, while the name, phone and facebook
signals (and longer website prefixes) diverge as the counterexample
shows. -/
theorem search_no_gating_amended (ranked : List Hit) (limit : Option Nat) (w : String)
    (hw : ((jsSplitChar (normalizeWebsite w) '.').headD "").length ≤ 3) :
    (searchRespond ranked limit).success = true ∧
    (searchRespond ranked limit).results.length ≤ limit.getD 5 ∧
    (searchRespond ranked limit).results.length ≤ ranked.length ∧
    searchShould ⟨"", w, "", ""⟩ = matchShould ⟨"", w, "", ""⟩ := by
  refine ⟨rfl, ?_, ?_, ?_⟩
  · simp only [searchRespond, List.length_map]
    exact List.length_take_le _ _
  · simp only [searchRespond, List.length_map]
    exact List.length_take_le' _ _
  · unfold searchShould matchShould
    have hq : jsTruthy "" = false := by decide
    simp only [hq, Bool.false_eq_true, if_false, List.append_nil, List.nil_append]
    by_cases hjw : jsTruthy w = true
    · simp only [hjw, if_true]
      by_cases hnd : jsTruthy (normalizeWebsite w) = true
      · simp only [hnd, if_true]
        have hd : (jsTruthy ((jsSplitChar (normalizeWebsite w) '.').headD "") &&
            decide (3 < ((jsSplitChar (normalizeWebsite w) '.').headD "").length)) = false := by
          rw [decide_eq_false (Nat.not_lt.mpr hw), Bool.and_false]
        simp only [hd, Bool.false_eq_true, if_false, List.append_nil]
      · simp only [hnd, Bool.false_eq_true, if_false]
    · simp only [hjw, Bool.false_eq_true, if_false]

/-- C3 amended witness: website-only query `"ab.com"` with the default
limit on an empty ranking. -/
theorem search_no_gating_amended_witness :
    ((jsSplitChar (normalizeWebsite "ab.com") '.').headD "").length ≤ 3 ∧
    searchShould ⟨"", "ab.com", "", ""⟩ = matchShould ⟨"", "ab.com", "", ""⟩ :=
  ⟨by decide, (search_no_gating_amended [] none "ab.com" (by decide)).2.2.2⟩

/-- C4: ingestion merge is a left join keyed by domain with the name
registry as the driving set: exactly one record per name-registry row,
in input order; rows with no matching contact-extraction entry get
empty phone/social/address/email sets and `success = false`; and
contact-extraction rows whose domain matches no name-registry row
contribute to no record (filtering them away changes nothing). -/
theorem merge_left_join (ns : List NameRow) (ss : List ScrapedRow) :
    (mergeData ns ss).length = ns.length ∧
    (∀ i : Nat, (mergeData ns ss)[i]? =
      (ns[i]?).map fun n => buildRecord n (scrapedLookup ss n.domain)) ∧
    (∀ n ∈ ns, (∀ s ∈ ss, s.domain ≠ n.domain) →
      (buildRecord n (scrapedLookup ss n.domain)).phoneNumbers = [] ∧
      (buildRecord n (scrapedLookup ss n.domain)).socialMediaLinks = [] ∧
      (buildRecord n (scrapedLookup ss n.domain)).addresses = [] ∧
      (buildRecord n (scrapedLookup ss n.domain)).emails = [] ∧
      (buildRecord n (scrapedLookup ss n.domain)).success = false) ∧
    mergeData ns (ss.filter fun s => ns.any fun n => n.domain = s.domain) = mergeData ns ss := by
  refine ⟨by simp [mergeData], ?_, ?_, ?_⟩
  · intro i
    simp [mergeData]
  · intro n _ hnone
    rw [scrapedLookup_eq_none ss n.domain hnone]
    exact ⟨rfl, rfl, rfl, rfl, rfl⟩
  · unfold mergeData
    apply List.map_congr_left
    intro n hn
    have hf := scrapedLookup_filter ns ss n.domain ⟨n, hn, rfl⟩ none
    unfold scrapedLookup
    rw [hf]

/-- C4 witness: one name row and one unrelated contact row. -/
theorem merge_left_join_witness :
    (mergeData [⟨"acme.com", "Acme", "", "Acme"⟩]
      [⟨"other.com", "123", "", "", "", "true"⟩]).length = 1 ∧
    (buildRecord ⟨"acme.com", "Acme", "", "Acme"⟩
      (scrapedLookup [⟨"other.com", "123", "", "", "", "true"⟩] "acme.com")).success = false :=
  ⟨(merge_left_join [⟨"acme.com", "Acme", "", "Acme"⟩]
      [⟨"other.com", "123", "", "", "", "true"⟩]).1,
   ((merge_left_join [⟨"acme.com", "Acme", "", "Acme"⟩]
      [⟨"other.com", "123", "", "", "", "true"⟩]).2.2.1
      ⟨"acme.com", "Acme", "", "Acme"⟩ (by decide) (by decide)).2.2.2.2⟩

/-- The `success` field a merged record carries, in terms of the joined
contact row: true exactly when the row exists and its `success` cell is
a non-empty string (`s === 'true' || Boolean(s)` over strings collapses
to non-emptiness, since `'true'` is itself non-empty). -/
theorem buildRecord_success (n : NameRow) (o : Option ScrapedRow) :
    (buildRecord n o).success = true ↔ ∃ srow, o = some srow ∧ srow.success ≠ "" := by
  cases o with
  | none => simp [buildRecord, scrapedField, jsTruthy]
  | some s =>
    by_cases he : s.success = "" <;>
      simp [buildRecord, scrapedField, jsTruthy, he]

/-- C5 counterexample: a contact row whose `success` cell is the string
`"false"` — the extraction failed, the flag is not true — still yields
`success = true` on the merged record, because `Boolean('false')` is
true in JS (`scrapedInfo.success === 'true' || Boolean(scrapedInfo.success)`). -/
theorem has_contact_data_counterexample :
    (∀ r ∈ mergeData [⟨"acme.com", "Acme Inc", "", "Acme"⟩]
        [⟨"acme.com", "", "", "", "", "false"⟩], r.success = true) ∧
    (∀ s ∈ ([⟨"acme.com", "", "", "", "", "false"⟩] : List ScrapedRow), s.success ≠ "true") :=
  ⟨by decide, by decide⟩

/-- C5 amended: for every record produced by the merge pipeline,
`success` (the spec's `has_contact_data`) is true exactly when the
contact-extraction join found a row for the record's domain and that
row's `success` cell is a non-empty string — not necessarily the string
`"true"`. -/
theorem has_contact_data_amended (ns : List NameRow) (ss : List ScrapedRow)
    (r : CompanyRecord) (h : r ∈ mergeData ns ss) :
    ∃ n ∈ ns, r = buildRecord n (scrapedLookup ss n.domain) ∧
      (r.success = true ↔
        ∃ srow, scrapedLookup ss n.domain = some srow ∧ srow.success ≠ "") := by
  obtain ⟨n, hn, rfl⟩ := List.mem_map.mp h
  exact ⟨n, hn, rfl, buildRecord_success n (scrapedLookup ss n.domain)⟩

/-- C5 amended witness: the `"false"`-flagged row is joined and the
record reports contact data. -/
theorem has_contact_data_amended_witness :
    ∃ n ∈ ([⟨"acme.com", "Acme Inc", "", "Acme"⟩] : List NameRow),
      buildRecord ⟨"acme.com", "Acme Inc", "", "Acme"⟩
          (scrapedLookup [⟨"acme.com", "", "", "", "", "false"⟩] "acme.com") =
        buildRecord n (scrapedLookup [⟨"acme.com", "", "", "", "", "false"⟩] n.domain) ∧
      ((buildRecord ⟨"acme.com", "Acme Inc", "", "Acme"⟩
          (scrapedLookup [⟨"acme.com", "", "", "", "", "false"⟩] "acme.com")).success = true ↔
        ∃ srow, scrapedLookup [⟨"acme.com", "", "", "", "", "false"⟩] n.domain = some srow ∧
          srow.success ≠ "") :=
  has_contact_data_amended [⟨"acme.com", "Acme Inc", "", "Acme"⟩]
    [⟨"acme.com", "", "", "", "", "false"⟩] _ (by decide)

/-- C6 counterexample: with a nonempty published generation, an
ingestion run whose required name-registry dataset is absent does not
abort — `loadCompanyNames` catches the read error and returns the
empty dataset, the run proceeds, `indexCompanies` deletes every
published document and publishes an empty generation — so readers do
not keep observing the generation they observed before. -/
theorem ingestion_missing_source_counterexample :
    finalGeneration (mergeData [⟨"acme.com", "Acme Inc", "", "Acme"⟩] [])
      (runIngestion none (some [])) = [] ∧
    mergeData [⟨"acme.com", "Acme Inc", "", "Acme"⟩] [] ≠ [] :=
  ⟨by decide, by decide⟩

/-- C6 amended: a missing input dataset does not abort ingestion; the
loader substitutes the empty dataset and the run replaces the published
generation with the corpus merged from what remains — the empty corpus
when the name registry is missing, and contact-less records
(`success = false`, empty contact sets) for every name row when the
contact-extraction dataset is missing. -/
theorem ingestion_missing_source_amended (old : List CompanyRecord)
    (scrapedSrc : Option (List ScrapedRow)) (ns : List NameRow) :
    runIngestion none scrapedSrc = [] ∧
    finalGeneration old (runIngestion none scrapedSrc) = [] ∧
    runIngestion (some ns) none = mergeData ns [] ∧
    ∀ r ∈ runIngestion (some ns) none,
      r.phoneNumbers = [] ∧ r.socialMediaLinks = [] ∧ r.addresses = [] ∧
      r.emails = [] ∧ r.success = false := by
  refine ⟨rfl, ?_, rfl, ?_⟩
  · rw [finalGeneration_eq]
    rfl
  · intro r hr
    obtain ⟨n, _, rfl⟩ := List.mem_map.mp hr
    exact ⟨rfl, rfl, rfl, rfl, rfl⟩

/-- C6 amended witness: a run with a missing contact dataset produces
one contact-less record for the single name row. -/
theorem ingestion_missing_source_amended_witness :
    runIngestion (some [⟨"acme.com", "Acme Inc", "", "Acme"⟩]) none =
      mergeData [⟨"acme.com", "Acme Inc", "", "Acme"⟩] [] ∧
    (buildRecord ⟨"acme.com", "Acme Inc", "", "Acme"⟩ none).success = false :=
  ⟨(ingestion_missing_source_amended [] none [⟨"acme.com", "Acme Inc", "", "Acme"⟩]).2.2.1,
   ((ingestion_missing_source_amended [] none [⟨"acme.com", "Acme Inc", "", "Acme"⟩]).2.2.2
      (buildRecord ⟨"acme.com", "Acme Inc", "", "Acme"⟩ none) (by decide)).2.2.2.2⟩

/-- C7 counterexample: `tokenize` uses the JS class `\w`, which keeps
the underscore, so `tokenize "a_b"` is `["a_b"]` — a returned token
that is not a lowercase alphanumeric string.  Under the claimed
behaviour (every character outside `[a-z0-9\s]` replaced by
whitespace) the pieces `a` and `b` would both have been discarded. -/
theorem tokenize_underscore_counterexample :
    tokenize "a_b" = ["a_b"] ∧
    ¬ (∀ t ∈ tokenize "a_b", ∀ c ∈ t.data,
        ('a' ≤ c ∧ c ≤ 'z') ∨ ('0' ≤ c ∧ c ≤ '9')) :=
  ⟨by decide, by decide⟩

/-- C7 amended: `tokenize` lowercases, replaces every character outside
the JS classes `\w` `\s` (that is, outside `[A-Za-z0-9_\s]`) with
whitespace, splits on whitespace runs and discards tokens of length
at most 1; consequently every returned token has length at least 2 and
consists only of characters in `[a-z0-9_]`. -/
theorem tokenize_classes_amended (s t : String) (h : t ∈ tokenize s) :
    1 < t.length ∧ ∀ c ∈ t.data, isLowerWordChar c = true :=
  ⟨length_of_mem_tokenize s t h, tokenize_chars s t h⟩

/-- C7 amended witness: the token `"acme"` of `"Acme Inc!"`. -/
theorem tokenize_classes_amended_witness :
    1 < ("acme" : String).length ∧
    ∀ c ∈ ("acme" : String).data, isLowerWordChar c = true :=
  tokenize_classes_amended "Acme Inc!" "acme" (by decide)

/-- C8: for every record built by ingestion, `searchTokens` contains
every token `tokenize` returns on each of the record's text fields —
commercial name, legal name, all available names, domain, and every
element of the phone, social-link, address and email sets — and
contains no token of length at most 1. -/
theorem search_tokens_complete (ns : List NameRow) (ss : List ScrapedRow)
    (r : CompanyRecord) (h : r ∈ mergeData ns ss) :
    (∀ tok : String,
      (tok ∈ tokenize r.company_commercial_name ∨
       tok ∈ tokenize r.company_legal_name ∨
       tok ∈ tokenize r.company_all_available_names ∨
       tok ∈ tokenize r.domain ∨
       (∃ p ∈ r.phoneNumbers, tok ∈ tokenize p) ∨
       (∃ p ∈ r.socialMediaLinks, tok ∈ tokenize p) ∨
       (∃ p ∈ r.addresses, tok ∈ tokenize p) ∨
       (∃ p ∈ r.emails, tok ∈ tokenize p)) →
      tok ∈ r.searchTokens) ∧
    (∀ tok ∈ r.searchTokens, ¬ tok.length ≤ 1) := by
  obtain ⟨n, hn, rfl⟩ := List.mem_map.mp h
  simp only [buildRecord]
  have hlegal : tokenize (if jsTruthy n.company_legal_name then n.company_legal_name else "") =
      tokenize n.company_legal_name := by
    by_cases hc : jsTruthy n.company_legal_name = true
    · rw [if_pos hc]
    · rw [if_neg hc]
      have he : n.company_legal_name = "" := by
        unfold jsTruthy at hc
        simpa using hc
      rw [he]
  constructor
  · intro tok htok
    rw [mem_jsSetFrom]
    simp only [List.mem_append, List.mem_flatMap]
    rw [hlegal] at htok
    rcases htok with h | h | h | h | h | h | h | h
    · exact Or.inl (Or.inl (Or.inl (Or.inl (Or.inl (Or.inl (Or.inl h))))))
    · exact Or.inl (Or.inl (Or.inl (Or.inl (Or.inl (Or.inl (Or.inr h))))))
    · exact Or.inl (Or.inl (Or.inl (Or.inl (Or.inl (Or.inr h)))))
    · exact Or.inl (Or.inl (Or.inl (Or.inl (Or.inr h))))
    · exact Or.inl (Or.inl (Or.inl (Or.inr h)))
    · exact Or.inl (Or.inl (Or.inr h))
    · exact Or.inl (Or.inr h)
    · exact Or.inr h
  · intro tok htok
    rw [mem_jsSetFrom] at htok
    simp only [List.mem_append, List.mem_flatMap] at htok
    have hlt : 1 < tok.length := by
      rcases htok with ((((((h | h) | h) | h) | h) | h) | h) | h
      · exact length_of_mem_tokenize _ _ h
      · exact length_of_mem_tokenize _ _ h
      · exact length_of_mem_tokenize _ _ h
      · exact length_of_mem_tokenize _ _ h
      · obtain ⟨p, _, hp⟩ := h
        exact length_of_mem_tokenize _ _ hp
      · obtain ⟨p, _, hp⟩ := h
        exact length_of_mem_tokenize _ _ hp
      · obtain ⟨p, _, hp⟩ := h
        exact length_of_mem_tokenize _ _ hp
      · obtain ⟨p, _, hp⟩ := h
        exact length_of_mem_tokenize _ _ hp
    exact Nat.not_le.mpr hlt

/-- C8 witness: the record for one name row joined with one contact
row. -/
theorem search_tokens_complete_witness :
    "acme" ∈ (buildRecord ⟨"acme.com", "Acme Inc", "", "Acme"⟩
      (scrapedLookup [⟨"acme.com", "2125550199", "", "", "", "true"⟩] "acme.com")).searchTokens :=
  (search_tokens_complete [⟨"acme.com", "Acme Inc", "", "Acme"⟩]
    [⟨"acme.com", "2125550199", "", "", "", "true"⟩] _ (by decide)).1
    "acme" (Or.inl (by decide))

/-- C9 counterexample: a reader concurrent with an ingestion swap can
observe a state that is neither the complete old generation nor the
complete new one — right after `deleteByQuery` (executed with
`refresh: true`) the index is empty while both generations are
nonempty. -/
theorem generation_mix_counterexample :
    ∃ s ∈ ingestStates [⟨"a.com", "A", "", "A", [], [], [], [], false, []⟩]
        [⟨"b.com", "B", "", "B", [], [], [], [], false, []⟩],
      s ≠ [⟨"a.com", "A", "", "A", [], [], [], [], false, []⟩] ∧
      s ≠ [⟨"b.com", "B", "", "B", [], [], [], [], false, []⟩] := by
  decide

/-- C9 amended: ingestion is not an atomic generation swap — the trace
of observable index states starts at the old generation, passes through
the empty index left by delete-all, then through cumulative 500-record
batch prefixes of the new corpus, and only its final state is the
complete new corpus.  Every mid-run observation is the old generation
or a (possibly partial) portion of the new one taken from the front. -/
theorem generation_swap_amended (old cs : List CompanyRecord) :
    (ingestStates old cs).head? = some old ∧
    (ingestStates old cs).getLastD old = cs ∧
    [] ∈ ingestStates old cs ∧
    ∀ s ∈ ingestStates old cs, s = old ∨ ∃ rest, s ++ rest = cs := by
  refine ⟨rfl, finalGeneration_eq old cs, by simp [ingestStates], ?_⟩
  intro s hs
  unfold ingestStates at hs
  rcases List.mem_cons.mp hs with h | hs2
  · exact Or.inl h
  rcases List.mem_cons.mp hs2 with h | hs3
  · right
    exact ⟨cs, by simp [h]⟩
  · right
    obtain ⟨cs1, cs2, heq, hval⟩ := mem_cumStatesFrom _ _ _ hs3
    refine ⟨cs2.flatten, ?_⟩
    rw [hval]
    simp only [List.nil_append]
    rw [← List.flatten_append, ← heq, chunks500_flatten]

/-- C9 amended witness: a singleton old and new corpus. -/
theorem generation_swap_amended_witness :
    ([] : List CompanyRecord) = [⟨"a.com", "A", "", "A", [], [], [], [], false, []⟩] ∨
    ∃ rest, ([] : List CompanyRecord) ++ rest =
      [⟨"a.com", "A", "", "A", [], [], [], [], false, []⟩] :=
  (generation_swap_amended [⟨"a.com", "A", "", "A", [], [], [], [], false, []⟩]
    [⟨"a.com", "A", "", "A", [], [], [], [], false, []⟩]).2.2.2 [] (by simp [ingestStates])

/-- C10: every record `mergeData` produces has string-valued name
fields and array-valued contact fields, so the unguarded accesses in
the matched-field re-check of `/api/match`
(`company_commercial_name.toLowerCase()`, `phoneNumbers.some`,
`socialMediaLinks.some`) never fault: on such records the dynamic
evaluation always returns a value, and it is the typed re-check's
value. -/
theorem match_fields_safety (ns : List NameRow) (ss : List ScrapedRow)
    (r : CompanyRecord) (h : r ∈ mergeData ns ss) :
    (∃ n ∈ ns, r = buildRecord n (scrapedLookup ss n.domain)) ∧
    ∀ q : Query, matchingFieldsDyn q (toDyn r) = some (matchingFieldsOf q r) := by
  obtain ⟨n, hn, rfl⟩ := List.mem_map.mp h
  refine ⟨⟨n, hn, rfl⟩, ?_⟩
  intro q
  unfold matchingFieldsDyn matchingFieldsOf toDyn
  cases jsTruthy q.name <;> cases jsTruthy q.website <;> cases jsTruthy q.phone <;>
    cases jsTruthy q.facebook <;> simp [Option.bind]

/-- C10 witness: a website-only query re-checked against a contact-less
merged record. -/
theorem match_fields_safety_witness :
    matchingFieldsDyn ⟨"", "acme.com", "", ""⟩
      (toDyn (buildRecord ⟨"acme.com", "Acme Inc", "", "Acme"⟩ (scrapedLookup [] "acme.com"))) =
    some (matchingFieldsOf ⟨"", "acme.com", "", ""⟩
      (buildRecord ⟨"acme.com", "Acme Inc", "", "Acme"⟩ (scrapedLookup [] "acme.com"))) :=
  (match_fields_safety [⟨"acme.com", "Acme Inc", "", "Acme"⟩] [] _ (by decide)).2 _

end CompanyMatch
